import Mathlib

/-!
# Verification of the Narrahunt Phase 2 investigation scheduler

A shallow embedding, in Lean 4, of the scheduling / deduplication core of the
Narrahunt Phase 2 repository:

* `url_queue.py` — the `URLQueue` class (URL normalization, deduplicated add,
  rate-limited retrieval);
* `detective_agent.py` — content normalization (`_normalize_content`),
  duplicate detection (`_is_duplicate_discovery`), the artifact-processing
  loop (`_process_artifacts`), and the loop-continuation check
  (`_should_continue_investigation`).

Python data is modelled as follows: `str` becomes `String` (character lists,
ASCII semantics for `str.lower` and the `\w` / `\s` regex classes), `float`
timestamps and scores become `ℚ`, dicts become insertion-ordered association
lists, and sets become lists queried by membership.  The `time.time()` clock
is passed explicitly as a `now : ℚ` argument.  Fallible code returns
`Option`.
-/

set_option maxRecDepth 65536

namespace Narrahunt

/-! ## Character classes (ASCII models of Python's `\s`, `\w`, `str.lower`) -/

/-- Python whitespace (`\s`, `str.split()`): space, tab, newline, carriage
return, vertical tab, form feed. -/
def isPySpace (c : Char) : Bool :=
  c = ' ' || c = '\t' || c = '\n' || c = Char.ofNat 13 || c = Char.ofNat 11 ||
    c = Char.ofNat 12

/-- ASCII model of the regex class `\w`: alphanumeric or underscore. -/
def isWordChar (c : Char) : Bool :=
  c.isAlphanum || c = '_'

/-- `str.lower()` on a string, ASCII model. -/
def lowerStr (s : String) : String :=
  String.mk (s.toList.map Char.toLower)

/-- Does `needle` occur as a contiguous sublist of `hay`? -/
def isSubstrL (needle : List Char) : List Char → Bool
  | [] => needle.isEmpty
  | c :: rest => needle.isPrefixOf (c :: rest) || isSubstrL needle rest

/-- Python `a in b` for strings: `a` occurs as a contiguous substring of
`b`. -/
def substrOf (a b : String) : Bool :=
  isSubstrL a.toList b.toList

/-! ## `str.split()` and `" ".join(...)` -/

/-- `str.split()` with no argument: split on runs of whitespace, dropping
empty pieces (on `List Char`; the accumulator holds the current word,
reversed). -/
def wordsAux : List Char → List Char → List (List Char)
  | [], acc => if acc.isEmpty then [] else [acc.reverse]
  | c :: rest, acc =>
    if isPySpace c then
      if acc.isEmpty then wordsAux rest [] else acc.reverse :: wordsAux rest []
    else
      wordsAux rest (c :: acc)

/-- `content.split()` as a list of words. -/
def pySplit (s : String) : List String :=
  (wordsAux s.toList []).map String.mk

/-- `" ".join(l.split())`: collapse every whitespace run to one space and
trim. -/
def collapseWs (l : List Char) : List Char :=
  List.intercalate [' '] (wordsAux l [])

/-- `str.strip()`: drop leading and trailing whitespace. -/
def trimWs (l : List Char) : List Char :=
  ((l.dropWhile isPySpace).reverse.dropWhile isPySpace).reverse

/-! ## `DetectiveAgent._normalize_content` -/

/-- The honorific titles stripped by `_normalize_content` (in source
order). -/
def titleList : List String :=
  ["mr", "mrs", "ms", "miss", "dr", "prof", "sir", "lord", "lady"]

/-- The generational suffixes stripped by `_normalize_content` (in source
order). -/
def suffixList : List String :=
  ["jr", "sr", "ii", "iii", "iv", "v"]

/-- `re.sub(r'^<title>\s+', '', s)`: if `s` starts with the literal title
followed by at least one whitespace character, remove the title and the
whole whitespace run. -/
def stripLeadingTitle (t s : List Char) : List Char :=
  if t.isPrefixOf s then
    match s.drop t.length with
    | c :: rest => if isPySpace c then rest.dropWhile isPySpace else s
    | [] => s
  else s

/-- `re.sub(r'\s+<suffix>$', '', s)`: if `s` ends with the literal suffix
preceded by at least one whitespace character, remove the suffix and the
whole whitespace run before it. -/
def stripTrailingSuffix (t s : List Char) : List Char :=
  let r := s.reverse
  let tr := t.reverse
  if tr.isPrefixOf r then
    match r.drop tr.length with
    | c :: rest =>
      if isPySpace c then ((c :: rest).dropWhile isPySpace).reverse else s
    | [] => s
  else s

/-- `DetectiveAgent._normalize_content(content, content_type)` on `List Char`.
Order of operations follows the source: lowercase, collapse whitespace, then
for `content_type == 'name'` strip characters outside `\w`/`\s` and strip the
title and suffix tokens (one regex substitution per list entry, applied in
list order), otherwise strip characters outside `[\w\s\-._@]`; finally
`strip()`. -/
def normalizeContentL (l : List Char) (ctype : Option String) : List Char :=
  if l.isEmpty then []
  else
    let n1 := l.map Char.toLower
    let n2 := collapseWs n1
    let n3 :=
      if ctype = some "name" then
        let f := n2.filter (fun c => isWordChar c || isPySpace c)
        let g := titleList.foldl (fun s t => stripLeadingTitle t.toList s) f
        suffixList.foldl (fun s t => stripTrailingSuffix t.toList s) g
      else
        n2.filter (fun c =>
          isWordChar c || isPySpace c || c = '-' || c = '.' || c = '@')
    trimWs n3

/-- `DetectiveAgent._normalize_content` on `String`. -/
def normalizeContent (s : String) (ctype : Option String) : String :=
  String.mk (normalizeContentL s.toList ctype)

example : normalizeContent "Dr. Jane Smith Jr." (some "name") = "jane smith" := by
  decide

example : normalizeContent "a_b" (some "name") = "a_b" := by decide

example : normalizeContent "dr prof smith" (some "name") = "smith" := by decide

example : normalizeContent "smith sr jr" (some "name") = "smith" := by decide

/-! ## Discoveries and `DetectiveAgent._is_duplicate_discovery`

The agent state carried here is the subset of `DetectiveAgent`'s fields that
the dedup logic reads or writes: `entity`, `entity_aliases`,
`excluded_names`, `unique_discovery_contents` (a Python set, modelled as a
list queried by membership) and `discoveries`. -/

/-- The discovery dict built in `_process_artifacts` (fields irrelevant to
scheduling/dedup — `summary`, `date`, `timestamp` — are carried as plain
strings). -/
structure Discovery where
  id : String
  type : String
  content : String
  summary : String
  source_url : String
  original_url : String
  is_wayback : Bool
  score : ℚ
  iteration : Nat
  name : String
deriving Repr, DecidableEq

/-- The dedup-relevant state of a `DetectiveAgent`. -/
structure AgentState where
  entity : String
  entity_aliases : List String
  excluded_names : List String
  unique_discovery_contents : List String
  discoveries : List Discovery
deriving Repr, DecidableEq

/-- The "core name" computed inside `_is_duplicate_discovery` for a
`name`-typed discovery: `re.sub(r'[^\w]', '', content.lower())`, then for
each title in `titleList` that prefixes `content.lower()` (followed by
whitespace), the core of the content with that title stripped replaces the
previous core when non-empty. -/
def coreNameOf (content : String) : List Char :=
  let lower := content.toList.map Char.toLower
  let core := lower.filter isWordChar
  titleList.foldl (fun core t =>
    if t.toList.isPrefixOf lower &&
        (match lower.drop t.length with
         | c :: _ => isPySpace c
         | [] => false) then
      let withoutTitle := stripLeadingTitle t.toList lower
      let core2 := withoutTitle.filter isWordChar
      if core2.isEmpty then core else core2
    else core) core

/-- First check of `_is_duplicate_discovery`: some existing discovery has
the same (truthy) id. -/
def dupIdMatch (d : Discovery) (s : AgentState) : Bool :=
  d.id ≠ "" && s.discoveries.any (fun e => e.id = d.id)

/-- Second check: the type-normalized content is already in
`unique_discovery_contents`. -/
def dupContentMatch (d : Discovery) (s : AgentState) : Bool :=
  d.content ≠ "" &&
    (let nc := normalizeContent d.content (some d.type)
     nc ≠ "" && s.unique_discovery_contents.contains nc)

/-- Third check (name artifacts): the normalized `name` field is already in
`unique_discovery_contents`. -/
def dupNameFieldMatch (d : Discovery) (s : AgentState) : Bool :=
  d.type = "name" && d.name ≠ "" && d.name ≠ d.content &&
    (let nn := normalizeContent d.name (some "name")
     nn ≠ "" && s.unique_discovery_contents.contains nn)

/-- Fourth check (name artifacts): some prior name discovery has the same
non-empty core name (exact core equality, no partial matching). -/
def dupCoreMatch (d : Discovery) (s : AgentState) : Bool :=
  d.type = "name" && d.content ≠ "" &&
    (let core := coreNameOf d.content
     s.discoveries.any (fun e =>
       e.type = "name" && e.content ≠ "" &&
         (let ecore := coreNameOf e.content
          !core.isEmpty && !ecore.isEmpty && core = ecore)))

/-- Fifth check (name artifacts): the lowercased content contains, or is
contained in, an excluded name of length at least 3. -/
def dupExcludedMatch (d : Discovery) (s : AgentState) : Bool :=
  d.type = "name" && d.content ≠ "" &&
    s.excluded_names.any (fun ex => 3 ≤ ex.length &&
      (substrOf (lowerStr ex) (lowerStr d.content) ||
       substrOf (lowerStr d.content) (lowerStr ex)))

/-- The tail of `_is_duplicate_discovery`: just before returning `False` the
method records the normalized content (and, for name artifacts, the
normalized name field) into `unique_discovery_contents`. -/
def recordUniqueContents (d : Discovery) (s : AgentState) : List String :=
  let nc := normalizeContent d.content (some d.type)
  let nn := normalizeContent d.name (some "name")
  let u1 := if d.content ≠ "" && nc ≠ "" then
      s.unique_discovery_contents ++ [nc] else s.unique_discovery_contents
  if d.type = "name" && d.name ≠ "" && d.name ≠ d.content && nn ≠ ""
    then u1 ++ [nn] else u1

/-- `DetectiveAgent._is_duplicate_discovery`, including its mutation of
`unique_discovery_contents` (the Python method adds the normalized content
and name to the set just before returning `False`).  Returns the boolean
result paired with the updated state.  The five early-`return True` blocks
of the source are the five `dup*Match` checks, in source order. -/
def isDuplicateDiscovery (d : Discovery) (s : AgentState) : Bool × AgentState :=
  if dupIdMatch d s then (true, s)
  else if dupContentMatch d s then (true, s)
  else if dupNameFieldMatch d s then (true, s)
  else if dupCoreMatch d s then (true, s)
  else if dupExcludedMatch d s then (true, s)
  else (false, { s with unique_discovery_contents := recordUniqueContents d s })

/-- Normalizing the empty string yields the empty string. -/
theorem normalizeContent_empty (t : Option String) : normalizeContent "" t = "" := by
  simp [normalizeContent, normalizeContentL]

/-- The boolean result of `_is_duplicate_discovery` is the disjunction of
its five checks. -/
theorem isDuplicateDiscovery_fst (d : Discovery) (s : AgentState) :
    (isDuplicateDiscovery d s).1 =
      (dupIdMatch d s || dupContentMatch d s || dupNameFieldMatch d s ||
       dupCoreMatch d s || dupExcludedMatch d s) := by
  unfold isDuplicateDiscovery
  by_cases h1 : dupIdMatch d s <;>
  by_cases h2 : dupContentMatch d s <;>
  by_cases h3 : dupNameFieldMatch d s <;>
  by_cases h4 : dupCoreMatch d s <;>
  by_cases h5 : dupExcludedMatch d s <;>
  simp [h1, h2, h3, h4, h5]

/-- The state returned by `_is_duplicate_discovery`: unchanged on `True`,
with the recorded normalized contents on `False`. -/
theorem isDuplicateDiscovery_snd (d : Discovery) (s : AgentState) :
    (isDuplicateDiscovery d s).2 =
      (if (isDuplicateDiscovery d s).1 then s
       else { s with unique_discovery_contents := recordUniqueContents d s }) := by
  unfold isDuplicateDiscovery
  by_cases h1 : dupIdMatch d s <;>
  by_cases h2 : dupContentMatch d s <;>
  by_cases h3 : dupNameFieldMatch d s <;>
  by_cases h4 : dupCoreMatch d s <;>
  by_cases h5 : dupExcludedMatch d s <;>
  simp [h1, h2, h3, h4, h5]

/-- The recorded-contents list only appends to the existing set. -/
theorem recordUniqueContents_append (d : Discovery) (s : AgentState) :
    ∃ ext, recordUniqueContents d s = s.unique_discovery_contents ++ ext := by
  unfold recordUniqueContents
  dsimp only
  split <;> split <;> simp

/-- If the content is non-empty and normalizes to something non-empty, the
recorded-contents list contains the normalized content. -/
theorem recordUniqueContents_mem (d : Discovery) (s : AgentState)
    (hc : d.content ≠ "") (hn : normalizeContent d.content (some d.type) ≠ "") :
    normalizeContent d.content (some d.type) ∈ recordUniqueContents d s := by
  unfold recordUniqueContents
  dsimp only
  split <;> simp_all

/-- Rejection of already-recorded content, stated for arbitrary discovery
and state: if the normalized content is non-empty and already in
`unique_discovery_contents`, `_is_duplicate_discovery` returns `True`. -/
theorem isDuplicate_of_recorded (d : Discovery) (s : AgentState)
    (hn : normalizeContent d.content (some d.type) ≠ "")
    (hm : normalizeContent d.content (some d.type) ∈ s.unique_discovery_contents) :
    (isDuplicateDiscovery d s).1 = true := by
  have hc : d.content ≠ "" := by
    intro h
    exact hn (by rw [h, normalizeContent_empty])
  have h2 : dupContentMatch d s = true := by
    unfold dupContentMatch
    simp [hc, hn, hm]
  rw [isDuplicateDiscovery_fst]
  simp [h2]

/-- C4: a duplicate submission of the same normalized content in any later
iteration never yields a second accepted discovery.  First conjunct: the
`unique_discovery_contents` set only grows across a call to
`_is_duplicate_discovery` (monotonic insertion, nothing removed).  Second
conjunct: content whose non-empty normalized form is already recorded is
rejected.  Third conjunct: if a first submission was accepted (dedup check
returned `False`), then a later submission of the same content and type,
against any state that retains the recorded contents of the first call
(the set is only ever grown between iterations), is rejected. -/
theorem contentDedup_monotone_and_rejects (d : Discovery) (s : AgentState) :
    (∃ ext, ((isDuplicateDiscovery d s).2).unique_discovery_contents
        = s.unique_discovery_contents ++ ext) ∧
    (normalizeContent d.content (some d.type) ≠ "" →
      normalizeContent d.content (some d.type) ∈ s.unique_discovery_contents →
      (isDuplicateDiscovery d s).1 = true) ∧
    (∀ (d₂ : Discovery) (s₂ : AgentState),
      d₂.content = d.content → d₂.type = d.type →
      normalizeContent d.content (some d.type) ≠ "" →
      (isDuplicateDiscovery d s).1 = false →
      (∀ x ∈ ((isDuplicateDiscovery d s).2).unique_discovery_contents,
        x ∈ s₂.unique_discovery_contents) →
      (isDuplicateDiscovery d₂ s₂).1 = true) := by
  refine ⟨?_, isDuplicate_of_recorded d s, ?_⟩
  · rw [isDuplicateDiscovery_snd]
    split
    · exact ⟨[], (List.append_nil _).symm⟩
    · exact recordUniqueContents_append d s
  · intro d₂ s₂ hcont htype hn hf hsub
    have hc : d.content ≠ "" := by
      intro h
      exact hn (by rw [h, normalizeContent_empty])
    have hmem : normalizeContent d.content (some d.type) ∈
        ((isDuplicateDiscovery d s).2).unique_discovery_contents := by
      rw [isDuplicateDiscovery_snd, hf]
      simpa using recordUniqueContents_mem d s hc hn
    apply isDuplicate_of_recorded
    · rw [hcont, htype]; exact hn
    · rw [hcont, htype]; exact hsub _ hmem

/-- Witness for C4: the content "satoshi" (type `username`), already
recorded in `unique_discovery_contents`, is rejected as a duplicate. -/
theorem contentDedup_monotone_and_rejects_witness :
    (isDuplicateDiscovery ⟨"", "username", "satoshi", "", "", "", false, 1, 0, ""⟩
      ⟨"", [], [], ["satoshi"], []⟩).1 = true :=
  (contentDedup_monotone_and_rejects _ _).2.1 (by decide) (by decide)

/-- C8 (amended): a `name`-kind discovery is rejected whenever its
lowercased raw content is a substring of, or contains as a substring, an
excluded name of length at least 3 (the source compares
`discovery_content.lower()` against `excluded.lower()`, not the normalized
text). -/
theorem nameExclusion_rejects (d : Discovery) (s : AgentState)
    (htype : d.type = "name") (hc : d.content ≠ "")
    (hex : ∃ ex ∈ s.excluded_names, 3 ≤ ex.length ∧
      (substrOf (lowerStr ex) (lowerStr d.content) = true ∨
       substrOf (lowerStr d.content) (lowerStr ex) = true)) :
    (isDuplicateDiscovery d s).1 = true := by
  have h5 : dupExcludedMatch d s = true := by
    unfold dupExcludedMatch
    obtain ⟨ex, hmem, hlen, hsub⟩ := hex
    simp only [htype, hc, List.any_eq_true, Bool.and_eq_true, decide_eq_true_eq,
      ne_eq, not_false_eq_true, and_true, true_and]
    exact ⟨ex, hmem, hlen, by rcases hsub with h | h <;> simp [h]⟩
  rw [isDuplicateDiscovery_fst]
  simp [h5]

/-- Witness for C8: content "Vitalik" is rejected when "Vitalik Buterin" is
among the excluded names. -/
theorem nameExclusion_rejects_witness :
    (isDuplicateDiscovery ⟨"", "name", "Vitalik", "", "", "", false, 1/2, 0, ""⟩
      ⟨"Vitalik Buterin", ["Vitalik Buterin"], ["Vitalik Buterin"], [], []⟩).1
      = true :=
  nameExclusion_rejects _ _ (by decide) (by decide)
    ⟨"Vitalik Buterin", by decide, by decide, Or.inr (by decide)⟩

/-- Counterexample for C8 as stated: the content "Vita-lik" has normalized
text "vitalik", which is a substring of the excluded name
"Vitalik Buterin" (length 15 ≥ 3), yet `_is_duplicate_discovery` accepts it,
because the source compares the lowercased raw content — "vita-lik" —
rather than the normalized text. -/
theorem nameExclusion_counterexample :
    (isDuplicateDiscovery ⟨"", "name", "Vita-lik", "", "", "", false, 1/2, 0, ""⟩
      ⟨"Vitalik Buterin", ["Vitalik Buterin"], ["Vitalik Buterin"], [], []⟩).1
      = false ∧
    normalizeContent "Vita-lik" (some "name") = "vitalik" ∧
    substrOf "vitalik" (lowerStr "Vitalik Buterin") = true ∧
    3 ≤ ("Vitalik Buterin" : String).length :=
  ⟨by decide, by decide, by decide, by decide⟩

/-! ## URL parsing (`urllib.parse`, as used by `url_queue.py`)

`urlparse`/`urlunparse` are modelled after CPython's `urlsplit`/`urlunsplit`
for URLs free of the `params` subtlety observable here: `urlparse` splits
`;params` off the last path segment and `URLQueue._normalize_url` passes
`path` and `params` through to `urlunparse` unchanged, so carrying the
params inside the `path` field is observationally identical. -/

/-- Parse result of `urllib.parse.urlsplit` (with `params` folded into
`path`, see above). -/
structure UrlParts where
  scheme : String
  netloc : String
  path : String
  query : String
  fragment : String
deriving Repr, DecidableEq

/-- Split a list at the first occurrence of `ch` (the occurrence itself is
dropped), or `none` when absent — `str.split(ch, 1)`. -/
def splitOnFirst (ch : Char) : List Char → Option (List Char × List Char)
  | [] => none
  | c :: rest =>
    if c = ch then some ([], rest)
    else (splitOnFirst ch rest).map (fun p => (c :: p.1, p.2))

/-- Valid scheme: a letter followed by letters, digits, `+`, `-`, `.`
(CPython's `scheme_chars` check before the first `:`). -/
def validSchemeChars : List Char → Bool
  | [] => false
  | c :: rest =>
    c.isAlpha && rest.all (fun d => d.isAlphanum || d = '+' || d = '-' || d = '.')

/-- CPython's pre-parse sanitization (`urlsplit`, CPython 3.11): strip
leading C0 controls and spaces (only leading — trailing space is
deliberately preserved), then remove every tab, carriage return and
newline. -/
def sanitizeUrl (l : List Char) : List Char :=
  (l.dropWhile (fun c => c.toNat ≤ 32)).filter
    (fun c => c ≠ '\t' && c ≠ '\n' && c ≠ Char.ofNat 13)

/-- Scheme split of `urlsplit`: everything before the first `:` becomes the
(lowercased) scheme when it is a valid scheme; otherwise no scheme. -/
def splitScheme (l : List Char) : String × List Char :=
  match splitOnFirst ':' l with
  | some (before, after) =>
    if validSchemeChars before then
      (String.mk (before.map Char.toLower), after)
    else ("", l)
  | none => ("", l)

/-- Netloc split of `urlsplit`: after a leading `//`, the netloc extends up
to the first of `/`, `?`, `#`. -/
def splitNetlocL (l : List Char) : List Char × List Char :=
  match l with
  | '/' :: '/' :: r =>
    (r.takeWhile (fun c => c ≠ '/' && c ≠ '?' && c ≠ '#'),
     r.dropWhile (fun c => c ≠ '/' && c ≠ '?' && c ≠ '#'))
  | _ => ([], l)

/-- Fragment split of `urlsplit`: at the first `#`. -/
def splitFragment (l : List Char) : List Char × List Char :=
  match splitOnFirst '#' l with
  | some (a, b) => (a, b)
  | none => (l, [])

/-- Query split of `urlsplit`: at the first `?`. -/
def splitQuery (l : List Char) : List Char × List Char :=
  match splitOnFirst '?' l with
  | some (a, b) => (a, b)
  | none => (l, [])

/-- `urllib.parse.urlparse` (CPython 3.11).  Returns `none` where CPython
raises `ValueError` (an unbalanced IPv6 bracket in the netloc);
`url_queue.py` catches that exception.  Not modelled: the address
validation of bracketed IPv6 hosts (`_check_bracketed_host`) and the
NFKC-stability check (`_checknetloc`), which only concern bracketed or
non-ASCII netlocs. -/
def pyUrlparse (url : String) : Option UrlParts :=
  let l := sanitizeUrl url.toList
  let sr := splitScheme l
  let nr := splitNetlocL sr.2
  if (nr.1.contains '[' && !nr.1.contains ']') ||
     (nr.1.contains ']' && !nr.1.contains '[') then none
  else
    let ff := splitFragment nr.2
    let pq := splitQuery ff.1
    some ⟨sr.1, String.mk nr.1, String.mk pq.1, String.mk pq.2,
          String.mk ff.2⟩

/-- The schemes of `urllib.parse.uses_netloc` (CPython 3.11). -/
def usesNetloc : List String :=
  ["", "ftp", "http", "gopher", "nntp", "telnet", "imap", "wais", "file",
   "mms", "https", "shttp", "snews", "prospero", "rtsp", "rtsps", "rtspu",
   "rsync", "svn", "svn+ssh", "sftp", "nfs", "git", "git+ssh", "ws", "wss"]

/-- `urllib.parse.urlunparse` (via `urlunsplit`, CPython 3.11; `params`
already folded into `path`). -/
def pyUrlunparse (scheme netloc path query fragment : String) : String :=
  let url := path
  let url :=
    if netloc ≠ "" ||
        (scheme ≠ "" && usesNetloc.contains scheme &&
          url.toList.take 2 ≠ ['/', '/']) then
      let u2 := if url ≠ "" && url.toList.take 1 ≠ ['/'] then "/" ++ url else url
      "//" ++ netloc ++ u2
    else url
  let url := if scheme ≠ "" then scheme ++ ":" ++ url else url
  let url := if query ≠ "" then url ++ "?" ++ query else url
  if fragment ≠ "" then url ++ "#" ++ fragment else url

/-! ## `url_queue.py` — the `URLQueue` class -/

/-- Tail of `URLQueue._normalize_url` after parsing: skip non-HTTP(S)
schemes, else rebuild the URL with a lowercased netloc and no fragment. -/
def normalizeFromParts (p : UrlParts) : Option String :=
  if p.scheme ≠ "http" && p.scheme ≠ "https" then none
  else some (pyUrlunparse p.scheme (lowerStr p.netloc) p.path p.query "")

/-- `URLQueue._normalize_url`: default a missing scheme to `https`
(re-parsing `"https://" + url`), reject non-HTTP(S) schemes, lowercase the
netloc and drop the fragment (query and path are preserved).  `none` models
both the explicit `return None` and the caught exception. -/
def normalizeUrl (url : String) : Option String :=
  match pyUrlparse url with
  | none => none
  | some parsed =>
    if parsed.scheme = "" then
      match pyUrlparse ("https://" ++ url) with
      | none => none
      | some p => normalizeFromParts p
    else normalizeFromParts parsed

/-- `URLQueue._hash_url`: the MD5 hex digest of the URL, modelled as the URL
string itself — an injective dedup key standing in for the (collision-free
in intent) digest. -/
def hashUrl (url : String) : String := url

/-- `URLQueue._get_domain`: `urlparse(url).netloc.lower()` (the queue only
calls this on successfully normalized URLs, where parsing cannot fail; a
failure is mapped to the empty netloc). -/
def getDomain (url : String) : String :=
  match pyUrlparse url with
  | some p => lowerStr p.netloc
  | none => ""

/-- An entry of `URLQueue.pending`: `{"url": url, "depth": depth,
"added": timestamp}`. -/
structure PendingInfo where
  url : String
  depth : Nat
  added : ℚ
deriving Repr, DecidableEq

/-- An entry of `URLQueue.visited`: `{"url": url, "visited": timestamp}`. -/
structure VisitedInfo where
  url : String
  visited : ℚ
deriving Repr, DecidableEq

/-- The state of a `URLQueue`.  Python dicts are modelled as
insertion-ordered association lists with unique keys. -/
structure QState where
  pending : List (String × PendingInfo)
  visited : List (String × VisitedInfo)
  domains_last_visit : List (String × ℚ)
deriving Repr, DecidableEq

/-- The freshly initialized queue. -/
def emptyQueue : QState := ⟨[], [], []⟩

/-- Dict lookup: the value at the first matching key. -/
def alookup (k : String) (l : List (String × α)) : Option α :=
  (l.find? (fun e => e.1 = k)).map (fun e => e.2)

/-- Dict assignment `d[k] = v`: replace the value at an existing key in
place, else append. -/
def aupdate (k : String) (v : α) : List (String × α) → List (String × α)
  | [] => [(k, v)]
  | (k', v') :: rest =>
    if k' = k then (k, v) :: rest else (k', v') :: aupdate k v rest

/-- `URLQueue.add_url(url, depth)` at clock value `now` (`time.time()`).
Returns the boolean result paired with the updated state. -/
def addUrl (url : String) (depth : Nat) (now : ℚ) (s : QState) :
    Bool × QState :=
  match normalizeUrl url with
  | none => (false, s)
  | some u =>
    let h := hashUrl u
    if (alookup h s.visited).isSome || (alookup h s.pending).isSome then
      (false, s)
    else
      (true, { s with pending := s.pending ++ [(h, ⟨u, depth, now⟩)] })

/-- Common tail of both branches of `URLQueue.next_url`: record the domain
access time, move the entry from `pending` to `visited`. -/
def takeEntry (e : String × PendingInfo) (now : ℚ) (s : QState) : QState :=
  { pending := s.pending.eraseP (fun x => x.1 = e.1),
    visited := s.visited ++ [(e.1, ⟨e.2.url, now⟩)],
    domains_last_visit := aupdate (getDomain e.2.url) now s.domains_last_visit }

/-- The per-entry admission test of `URLQueue.next_url`: the entry is
skipped when `current_time - last_visit < min_delay`, where an unrecorded
domain defaults to `last_visit = 0`. -/
def entryAdmitted (now : ℚ) (s : QState) (e : String × PendingInfo) : Bool :=
  let domain := getDomain e.2.url
  let lastVisit := (alookup domain s.domains_last_visit).getD 0
  !(now - lastVisit < 1)

/-- `URLQueue.next_url()` at clock value `now`: return the first pending
entry whose domain is not rate-limited (`min_delay = 1.0`); if every
pending domain is rate-limited, fall back to the first (oldest) pending
entry regardless of delay. -/
def nextUrl (now : ℚ) (s : QState) : Option (String × Nat) × QState :=
  match s.pending with
  | [] => (none, s)
  | first :: _ =>
    match s.pending.find? (entryAdmitted now s) with
    | some e => (some (e.2.url, e.2.depth), takeEntry e now s)
    | none => (some (first.2.url, first.2.depth), takeEntry first now s)

example : normalizeUrl "ftp://example.com/x" = none := by decide

example : normalizeUrl "" = some "https://" := by decide

example : normalizeUrl "Example.com/p" = some "https://example.com/p" := by
  decide

example : normalizeUrl "HTTP://Example.COM/Path?q=1#frag"
    = some "http://example.com/Path?q=1" := by decide

example : normalizeUrl "http://[oops" = none := by decide

/-! ## Fragment removal (claims C9/C10) -/

/-- `Char.toLower` maps only `'#'` to `'#'`. -/
theorem toLower_eq_hash {c : Char} (h : Char.toLower c = '#') : c = '#' := by
  unfold Char.toLower at h
  dsimp only at h
  split at h
  · exfalso
    rename_i hr
    have hv : (c.toNat + 32).isValidChar := Or.inl (by omega)
    rw [Char.ofNat, dif_pos hv] at h
    have h2 := congrArg Char.toNat h
    simp only [Char.ofNatAux, Char.toNat, UInt32.toNat, BitVec.toNat_ofNatLt] at h2
    have h3 : c.toNat = c.val.toBitVec.toNat := rfl
    have h4 : ('#' : Char).val.toBitVec.toNat = 35 := rfl
    omega
  · exact h

/-- Characterization of a successful `splitOnFirst`. -/
theorem splitOnFirst_some (ch : Char) :
    ∀ (l a b : List Char), splitOnFirst ch l = some (a, b) →
      l = a ++ ch :: b ∧ ch ∉ a := by
  intro l
  induction l with
  | nil =>
    intro a b h
    rw [show splitOnFirst ch [] = none from rfl] at h
    exact Option.noConfusion h
  | cons c rest ih =>
    intro a b h
    unfold splitOnFirst at h
    split at h
    · rename_i hc
      simp only [Option.some.injEq, Prod.mk.injEq] at h
      obtain ⟨ha, hb⟩ := h
      subst ha; subst hb; subst hc
      simp
    · rename_i hc
      cases hsp : splitOnFirst ch rest with
      | none => rw [hsp] at h; simp at h
      | some p =>
        rw [hsp] at h
        simp only [Option.map_some', Option.some.injEq, Prod.mk.injEq] at h
        obtain ⟨ha, hb⟩ := h
        obtain ⟨h1, h2⟩ := ih p.1 p.2 (by rw [hsp])
        subst ha; subst hb
        refine ⟨by simp [h1], ?_⟩
        simp only [List.mem_cons, not_or]
        exact ⟨fun hq => hc hq.symm, h2⟩

/-- A failed `splitOnFirst` means the character is absent. -/
theorem splitOnFirst_none (ch : Char) :
    ∀ (l : List Char), splitOnFirst ch l = none → ch ∉ l := by
  intro l
  induction l with
  | nil => intro _ h; simp at h
  | cons c rest ih =>
    intro h
    unfold splitOnFirst at h
    split at h
    · simp at h
    · rename_i hc
      cases hsp : splitOnFirst ch rest with
      | none =>
        simp only [List.mem_cons, not_or]
        exact ⟨fun hq => hc hq.symm, ih hsp⟩
      | some p => rw [hsp] at h; simp at h

/-- A valid scheme contains no `#`. -/
theorem validScheme_no_hash {l : List Char} (hv : validSchemeChars l = true) :
    '#' ∉ l := by
  intro hmem
  cases l with
  | nil => simp at hmem
  | cons c rest =>
    unfold validSchemeChars at hv
    simp only [Bool.and_eq_true, List.all_eq_true] at hv
    obtain ⟨h1, h2⟩ := hv
    rcases List.mem_cons.mp hmem with h | h
    · rw [← h] at h1; simp [Char.isAlpha, Char.isUpper, Char.isLower] at h1
    · have := h2 _ h
      simp [Char.isAlphanum, Char.isAlpha, Char.isUpper, Char.isLower,
        Char.isDigit] at this

/-- The scheme produced by `splitScheme` contains no `#`. -/
theorem splitScheme_no_hash (l : List Char) :
    '#' ∉ ((splitScheme l).1).toList := by
  unfold splitScheme
  cases hsp : splitOnFirst ':' l with
  | none => simp
  | some p =>
    obtain ⟨before, after⟩ := p
    dsimp only
    by_cases hv : validSchemeChars before = true
    · simp only [hv, if_true]
      intro hmem
      have hmem' : '#' ∈ before.map Char.toLower := hmem
      obtain ⟨c, hc, hlc⟩ := List.mem_map.mp hmem'
      exact validScheme_no_hash hv (toLower_eq_hash hlc ▸ hc)
    · simp [hv]

/-- The netloc produced by `splitNetlocL` contains no `#`. -/
theorem splitNetloc_no_hash (l : List Char) : '#' ∉ (splitNetlocL l).1 := by
  unfold splitNetlocL
  split
  · intro h
    have := List.mem_takeWhile_imp h
    simp at this
  · simp

/-- The part before the fragment contains no `#`. -/
theorem splitFragment_no_hash (l : List Char) : '#' ∉ (splitFragment l).1 := by
  unfold splitFragment
  cases h : splitOnFirst '#' l with
  | none => simpa using splitOnFirst_none _ _ h
  | some p => exact (splitOnFirst_some _ _ _ _ h).2

/-- Both parts of the query split come from the input. -/
theorem splitQuery_subset (l : List Char) (c : Char) :
    (c ∈ (splitQuery l).1 → c ∈ l) ∧ (c ∈ (splitQuery l).2 → c ∈ l) := by
  unfold splitQuery
  cases h : splitOnFirst '?' l with
  | none => simp
  | some p =>
    obtain ⟨h1, _⟩ := splitOnFirst_some _ _ _ _ h
    rw [h1]
    constructor <;> intro hc <;> simp [hc]

/-- No component of a successfully parsed URL contains `#`. -/
theorem pyUrlparse_no_hash (u : String) (p : UrlParts)
    (h : pyUrlparse u = some p) :
    '#' ∉ p.scheme.toList ∧ '#' ∉ p.netloc.toList ∧ '#' ∉ p.path.toList ∧
      '#' ∉ p.query.toList := by
  unfold pyUrlparse at h
  dsimp only at h
  split at h
  · simp at h
  · rw [Option.some.injEq] at h
    subst h
    refine ⟨splitScheme_no_hash _, splitNetloc_no_hash _, ?_, ?_⟩
    · intro hm
      exact splitFragment_no_hash _ ((splitQuery_subset _ _).1 hm)
    · intro hm
      exact splitFragment_no_hash _ ((splitQuery_subset _ _).2 hm)

/-- Lowercasing preserves the absence of `#`. -/
theorem lowerStr_no_hash {s : String} (h : '#' ∉ s.toList) :
    '#' ∉ (lowerStr s).toList := by
  intro hm
  have hm' : '#' ∈ s.toList.map Char.toLower := hm
  obtain ⟨c, hc, hlc⟩ := List.mem_map.mp hm'
  exact h (toLower_eq_hash hlc ▸ hc)

/-- Unparsing with an empty fragment from `#`-free components yields a
`#`-free URL. -/
theorem pyUrlunparse_no_hash {scheme netloc path query : String}
    (h1 : '#' ∉ scheme.toList) (h2 : '#' ∉ netloc.toList)
    (h3 : '#' ∉ path.toList) (h4 : '#' ∉ query.toList) :
    '#' ∉ (pyUrlunparse scheme netloc path query "").toList := by
  have ha : '#' ∉ ("//" : String).data := by decide
  have hb : '#' ∉ ("/" : String).data := by decide
  have hc : '#' ∉ (":" : String).data := by decide
  have hd : '#' ∉ ("?" : String).data := by decide
  unfold pyUrlunparse
  dsimp only
  repeat' split
  all_goals
    intro hmem
    simp_all [String.data_append, List.mem_append]

/-- `normalizeFromParts` of `#`-free components yields a `#`-free URL. -/
theorem normalizeFromParts_no_hash (p : UrlParts) (n : String)
    (hp : '#' ∉ p.scheme.toList ∧ '#' ∉ p.netloc.toList ∧
      '#' ∉ p.path.toList ∧ '#' ∉ p.query.toList)
    (h : normalizeFromParts p = some n) : '#' ∉ n.toList := by
  unfold normalizeFromParts at h
  split at h
  · exact Option.noConfusion h
  · rw [Option.some.injEq] at h
    subst h
    exact pyUrlunparse_no_hash hp.1 (lowerStr_no_hash hp.2.1) hp.2.2.1 hp.2.2.2

/-- Every URL accepted by `_normalize_url` is free of `#`: the fragment is
removed. -/
theorem normalizeUrl_no_hash (u n : String) (h : normalizeUrl u = some n) :
    '#' ∉ n.toList := by
  unfold normalizeUrl at h
  cases hp : pyUrlparse u with
  | none => rw [hp] at h; exact Option.noConfusion h
  | some parsed =>
    rw [hp] at h
    dsimp only at h
    by_cases hs : parsed.scheme = ""
    · rw [if_pos hs] at h
      cases hp2 : pyUrlparse ("https://" ++ u) with
      | none => rw [hp2] at h; exact Option.noConfusion h
      | some p =>
        rw [hp2] at h
        exact normalizeFromParts_no_hash p n (pyUrlparse_no_hash _ _ hp2) h
    · rw [if_neg hs] at h
      exact normalizeFromParts_no_hash parsed n (pyUrlparse_no_hash _ _ hp) h

/-- C9 (amended): adding a target whose URL is invalid — after
normalization it has no `http`/`https` scheme, or it cannot be parsed — is
a no-op, not an error: `add_url` returns `False` and the state (both
`pending` and `visited`) is unchanged.  An *empty* identity, however, is
not rejected: the empty string normalizes to `"https://"` and is inserted
as an ordinary pending entry. -/
theorem addUrl_invalid_noop :
    (∀ (u : String) (d : Nat) (t : ℚ) (s : QState),
      normalizeUrl u = none → addUrl u d t s = (false, s)) ∧
    normalizeUrl "" = some "https://" ∧
    (addUrl "" 0 0 emptyQueue).1 = true := by
  refine ⟨?_, by decide, by decide⟩
  intro u d t s h
  simp [addUrl, h]

/-- Witness for C9: an `ftp` URL is rejected with the queue unchanged. -/
theorem addUrl_invalid_noop_witness :
    addUrl "ftp://example.com/x" 0 0 emptyQueue = (false, emptyQueue) :=
  addUrl_invalid_noop.1 _ _ _ _ (by decide)

/-- Counterexample for C9 as stated: adding the *empty* URL is not a no-op.
The empty string normalizes to `"https://"` (CPython's `urlunsplit` emits
`scheme://` for netloc-using schemes), which is truthy, so `add_url("")`
returns `True` and inserts a pending entry. -/
theorem addUrl_empty_counterexample :
    (addUrl "" 0 0 emptyQueue).1 = true ∧
    (addUrl "" 0 0 emptyQueue).2.pending =
      [("https://", ⟨"https://", 0, 0⟩)] :=
  ⟨by decide, by decide⟩

/-- C10: the dedup identity of an accepted URL is the normalized URL: a
missing scheme defaults to `https`, the host is lowercased, the fragment is
removed (first conjunct: no accepted identity contains `#`), and the query
string is preserved.  Two URLs differing only in their fragment collapse to
one queue entry (the second `add_url` returns `False`); two URLs differing
only in their query string yield two distinct pending entries. -/
theorem urlNormalization_dedup :
    (∀ (u n : String), normalizeUrl u = some n → '#' ∉ n.toList) ∧
    normalizeUrl "Example.com/p" = some "https://example.com/p" ∧
    normalizeUrl "HTTP://Example.COM/Path?q=1#frag"
      = some "http://example.com/Path?q=1" ∧
    ((addUrl "http://example.com/a?x=1#f1" 0 0 emptyQueue).1 = true ∧
     (addUrl "http://example.com/a?x=1#f2" 1 1
        (addUrl "http://example.com/a?x=1#f1" 0 0 emptyQueue).2).1 = false ∧
     ((addUrl "http://example.com/a?x=1#f2" 1 1
        (addUrl "http://example.com/a?x=1#f1" 0 0 emptyQueue).2).2).pending.length
        = 1) ∧
    ((addUrl "http://example.com/a?x=1" 0 0 emptyQueue).1 = true ∧
     (addUrl "http://example.com/a?x=2" 1 1
        (addUrl "http://example.com/a?x=1" 0 0 emptyQueue).2).1 = true ∧
     ((addUrl "http://example.com/a?x=2" 1 1
        (addUrl "http://example.com/a?x=1" 0 0 emptyQueue).2).2).pending.length
        = 2) :=
  ⟨normalizeUrl_no_hash, by decide, by decide,
   ⟨by decide, by decide, by decide⟩, ⟨by decide, by decide, by decide⟩⟩

/-- Witness for C10: the fragment-free property applied to a concrete
accepted URL. -/
theorem urlNormalization_dedup_witness :
    '#' ∉ ("http://example.com/Path?q=1" : String).toList :=
  urlNormalization_dedup.1 "HTTP://Example.COM/Path?q=1#frag" _ (by decide)

/-! ## Queue well-formedness (claim C5) -/

/-- The hashes present in `pending`. -/
def pendingKeys (s : QState) : List String := s.pending.map Prod.fst

/-- The hashes present in `visited`. -/
def visitedKeys (s : QState) : List String := s.visited.map Prod.fst

/-- Well-formedness of a queue state: both dicts have unique keys (they are
Python dicts) and no hash is simultaneously pending and visited. -/
def wfQueue (s : QState) : Prop :=
  (pendingKeys s).Nodup ∧ (visitedKeys s).Nodup ∧
    ∀ k, k ∈ pendingKeys s → k ∉ visitedKeys s

/-- Unfolding `alookup` over a dict entry. -/
theorem alookup_cons {α : Type} (e : String × α) (rest : List (String × α))
    (k : String) :
    alookup k (e :: rest) = if e.1 = k then some e.2 else alookup k rest := by
  by_cases he : e.1 = k
  · simp [alookup, List.find?_cons, he]
  · simp [alookup, List.find?_cons, he]

/-- `alookup` succeeds exactly on the stored keys. -/
theorem alookup_isSome_iff {α : Type} (k : String) :
    ∀ (l : List (String × α)),
      (alookup k l).isSome = true ↔ k ∈ l.map Prod.fst := by
  intro l
  induction l with
  | nil => simp [alookup]
  | cons e rest ih =>
    rw [alookup_cons]
    by_cases he : e.1 = k
    · simp [he]
    · simp only [he, if_false, List.map_cons, List.mem_cons, ih]
      constructor
      · intro h; exact Or.inr h
      · intro h
        rcases h with h | h
        · exact absurd h.symm he
        · exact h

/-- After erasing the entry with key `k` from a dict with unique keys, `k`
is gone. -/
theorem erasePKey_not_mem {α : Type} (k : String) :
    ∀ (l : List (String × α)), (l.map Prod.fst).Nodup →
      k ∉ (l.eraseP (fun x => x.1 = k)).map Prod.fst := by
  intro l
  induction l with
  | nil => simp
  | cons e rest ih =>
    intro hnd
    by_cases he : e.1 = k
    · rw [List.eraseP_cons_of_pos (by simp [he])]
      simp only [List.map_cons, List.nodup_cons] at hnd
      rw [← he]
      exact hnd.1
    · rw [List.eraseP_cons_of_neg (by simp [he])]
      simp only [List.map_cons, List.nodup_cons] at hnd
      simp only [List.map_cons, List.mem_cons, not_or]
      exact ⟨fun hk => he hk.symm, ih hnd.2⟩

/-- Erasure by key preserves the other keys. -/
theorem mem_erasePKey {α : Type} (k k' : String) (l : List (String × α))
    (hne : k ≠ k') (h : k ∈ l.map Prod.fst) :
    k ∈ (l.eraseP (fun x => x.1 = k')).map Prod.fst := by
  obtain ⟨e, he, hk⟩ := List.mem_map.mp h
  refine List.mem_map.mpr ⟨e, ?_, hk⟩
  refine (List.mem_eraseP_of_neg ?_).mpr he
  simp [hk, hne]

/-- `takeEntry` never loses a hash: every pending or visited hash is still
pending or visited afterwards. -/
theorem takeEntry_keys (e : String × PendingInfo) (now : ℚ) (s : QState)
    (k : String) (h : k ∈ pendingKeys s ∨ k ∈ visitedKeys s) :
    k ∈ pendingKeys (takeEntry e now s) ∨ k ∈ visitedKeys (takeEntry e now s) := by
  have hv : visitedKeys (takeEntry e now s) = visitedKeys s ++ [e.1] := by
    simp [takeEntry, visitedKeys]
  rcases h with h | h
  · by_cases hk : k = e.1
    · right; rw [hv]; simp [hk]
    · left
      exact mem_erasePKey k e.1 s.pending hk h
  · right; rw [hv]; exact List.mem_append_left _ h

/-- `takeEntry` on a pending entry preserves well-formedness. -/
theorem takeEntry_wf (e : String × PendingInfo) (now : ℚ) (s : QState)
    (he : e ∈ s.pending) (hwf : wfQueue s) : wfQueue (takeEntry e now s) := by
  obtain ⟨hp, hv, hd⟩ := hwf
  have hek : e.1 ∈ pendingKeys s := List.mem_map.mpr ⟨e, he, rfl⟩
  have henv : e.1 ∉ visitedKeys s := hd _ hek
  have hsub : List.Sublist ((s.pending.eraseP (fun x => x.1 = e.1)).map Prod.fst)
      (s.pending.map Prod.fst) :=
    List.Sublist.map _ (List.eraseP_sublist _)
  have hpk : pendingKeys (takeEntry e now s)
      = (s.pending.eraseP (fun x => x.1 = e.1)).map Prod.fst := by
    simp [pendingKeys, takeEntry]
  have hvk : visitedKeys (takeEntry e now s) = visitedKeys s ++ [e.1] := by
    simp [takeEntry, visitedKeys]
  refine ⟨?_, ?_, ?_⟩
  · rw [hpk]
    exact List.Nodup.sublist hsub hp
  · rw [hvk, List.nodup_append]
    refine ⟨hv, List.nodup_singleton _, ?_⟩
    intro a ha hae
    have : a = e.1 := by simpa using hae
    subst this
    exact henv ha
  · intro k hk
    rw [hpk] at hk
    rw [hvk]
    intro hkv
    rcases List.mem_append.mp hkv with h1 | h1
    · exact hd k (hsub.subset hk) h1
    · have : k = e.1 := by simpa using h1
      subst this
      exact erasePKey_not_mem _ s.pending hp hk

/-- `next_url` either leaves the state unchanged (empty queue) or takes one
pending entry. -/
theorem nextUrl_snd (t : ℚ) (s : QState) :
    (nextUrl t s).2 = s ∨ ∃ e ∈ s.pending, (nextUrl t s).2 = takeEntry e t s := by
  unfold nextUrl
  cases hp : s.pending with
  | nil => left; rfl
  | cons first rest =>
    cases hf : (first :: rest).find? (entryAdmitted t s) with
    | some e =>
      right
      refine ⟨e, List.mem_of_find?_eq_some hf, ?_⟩
      dsimp only
    | none =>
      right
      refine ⟨first, List.mem_cons_self first rest, ?_⟩
      dsimp only

/-- `next_url` never loses a hash. -/
theorem nextUrl_keys (t : ℚ) (s : QState) (k : String)
    (h : k ∈ pendingKeys s ∨ k ∈ visitedKeys s) :
    k ∈ pendingKeys ((nextUrl t s).2) ∨ k ∈ visitedKeys ((nextUrl t s).2) := by
  rcases nextUrl_snd t s with h2 | ⟨e, _, h2⟩
  · rw [h2]; exact h
  · rw [h2]; exact takeEntry_keys e t s k h

/-- `next_url` preserves well-formedness. -/
theorem nextUrl_wf (t : ℚ) (s : QState) (h : wfQueue s) :
    wfQueue ((nextUrl t s).2) := by
  rcases nextUrl_snd t s with h2 | ⟨e, he, h2⟩
  · rw [h2]; exact h
  · rw [h2]; exact takeEntry_wf e t s he h

/-- A sequence of `next_url` calls at the given clock values (only the
state effect). -/
def runNextUrls (times : List ℚ) (s : QState) : QState :=
  times.foldl (fun st tm => (nextUrl tm st).2) s

/-- `runNextUrls` never loses a hash. -/
theorem runNextUrls_keys (times : List ℚ) : ∀ (s : QState) (k : String),
    (k ∈ pendingKeys s ∨ k ∈ visitedKeys s) →
    (k ∈ pendingKeys (runNextUrls times s) ∨
     k ∈ visitedKeys (runNextUrls times s)) := by
  induction times with
  | nil => intro s k h; exact h
  | cons tm rest ih => intro s k h; exact ih _ _ (nextUrl_keys tm s k h)

/-- `runNextUrls` preserves well-formedness. -/
theorem runNextUrls_wf (times : List ℚ) : ∀ (s : QState),
    wfQueue s → wfQueue (runNextUrls times s) := by
  induction times with
  | nil => intro s h; exact h
  | cons tm rest ih => intro s h; exact ih _ (nextUrl_wf tm s h)

/-- A successful `add_url` leaves the normalized URL's hash pending. -/
theorem addUrl_true_parts (u : String) (d : Nat) (t : ℚ) (s : QState)
    (h : (addUrl u d t s).1 = true) :
    ∃ n, normalizeUrl u = some n ∧ n ∈ pendingKeys ((addUrl u d t s).2) := by
  unfold addUrl at h ⊢
  cases hn : normalizeUrl u with
  | none => rw [hn] at h; simp at h
  | some n =>
    rw [hn] at h
    dsimp only at h ⊢
    split at h
    · simp at h
    · rename_i hcond
      rw [if_neg hcond]
      refine ⟨n, rfl, ?_⟩
      simp [pendingKeys, hashUrl]

/-- `add_url` of an already pending or visited URL returns `False` and
leaves the state unchanged. -/
theorem addUrl_false_of_mem (u : String) (d : Nat) (t : ℚ) (s : QState)
    (n : String) (hn : normalizeUrl u = some n)
    (h : n ∈ pendingKeys s ∨ n ∈ visitedKeys s) :
    addUrl u d t s = (false, s) := by
  unfold addUrl
  rw [hn]
  dsimp only
  have hc : ((alookup (hashUrl n) s.visited).isSome ||
      (alookup (hashUrl n) s.pending).isSome) = true := by
    rcases h with h | h
    · simp [hashUrl, (alookup_isSome_iff n s.pending).mpr h]
    · simp [hashUrl, (alookup_isSome_iff n s.visited).mpr h]
  rw [if_pos hc]

/-- `add_url` preserves well-formedness. -/
theorem addUrl_wf (u : String) (d : Nat) (t : ℚ) (s : QState)
    (h : wfQueue s) : wfQueue ((addUrl u d t s).2) := by
  unfold addUrl
  cases hn : normalizeUrl u with
  | none => exact h
  | some n =>
    dsimp only
    split
    · exact h
    · rename_i hcond
      simp only [Bool.or_eq_true, not_or, Bool.not_eq_true] at hcond
      obtain ⟨hcv, hcp⟩ := hcond
      have hnv : hashUrl n ∉ visitedKeys s := fun hm => by
        rw [(alookup_isSome_iff (hashUrl n) s.visited).mpr hm] at hcv
        exact Bool.noConfusion hcv
      have hnp : hashUrl n ∉ pendingKeys s := fun hm => by
        rw [(alookup_isSome_iff (hashUrl n) s.pending).mpr hm] at hcp
        exact Bool.noConfusion hcp
      obtain ⟨hp, hv, hd⟩ := h
      have hpk : pendingKeys { s with
          pending := s.pending ++ [(hashUrl n, ⟨n, d, t⟩)] }
          = pendingKeys s ++ [hashUrl n] := by
        simp [pendingKeys]
      refine ⟨?_, hv, ?_⟩
      · rw [hpk, List.nodup_append]
        refine ⟨hp, List.nodup_singleton _, ?_⟩
        intro a ha hae
        have : a = hashUrl n := by simpa using hae
        subst this
        exact hnp ha
      · intro k hk
        rw [hpk] at hk
        rcases List.mem_append.mp hk with h1 | h1
        · exact hd k h1
        · have : k = hashUrl n := by simpa using h1
          subst this
          exact hnv

/-- C5: adding a target with the same identity twice is idempotent.  After
a first successful `add_url` of `u`, and any number of subsequent
`next_url` selections (which may have moved the entry to `visited`), a
second `add_url` of `u` returns `False` and leaves the state unchanged —
no second entry is created — and the state remains well-formed: no hash
appears in more than one entry across `pending` and `visited`. -/
theorem addUrl_idempotent (u : String) (d : Nat) (t : ℚ) (s : QState)
    (hwf : wfQueue s) (hadd : (addUrl u d t s).1 = true)
    (times : List ℚ) (d2 : Nat) (t2 : ℚ) :
    addUrl u d2 t2 (runNextUrls times (addUrl u d t s).2)
      = (false, runNextUrls times (addUrl u d t s).2) ∧
    wfQueue (runNextUrls times (addUrl u d t s).2) := by
  obtain ⟨n, hn, hmem⟩ := addUrl_true_parts u d t s hadd
  constructor
  · exact addUrl_false_of_mem _ _ _ _ n hn
      (runNextUrls_keys times _ n (Or.inl hmem))
  · exact runNextUrls_wf times _ (addUrl_wf u d t s hwf)

/-- Witness for C5: a URL added at `t = 0`, selected (and thus moved to
`visited`) at `t = 1000`, is rejected on a second add. -/
theorem addUrl_idempotent_witness :
    addUrl "http://example.com/a" 1 1001
        (runNextUrls [1000] (addUrl "http://example.com/a" 0 0 emptyQueue).2)
      = (false,
         runNextUrls [1000] (addUrl "http://example.com/a" 0 0 emptyQueue).2) ∧
    wfQueue (runNextUrls [1000] (addUrl "http://example.com/a" 0 0 emptyQueue).2) :=
  addUrl_idempotent _ _ _ _
    ⟨by simp [pendingKeys, emptyQueue], by simp [visitedKeys, emptyQueue],
     fun k hk => by simp [pendingKeys, emptyQueue] at hk⟩
    (by decide) [1000] 1 1001

/-! ## Rate limiting (claim C2) -/

/-- Queue for the C2 concrete scenario: two targets on `d.com`, one on
`e.com`, added in that order at `t = 0`. -/
def rateScenarioQueue : QState :=
  (addUrl "http://e.com/1" 0 0
    (addUrl "http://d.com/2" 0 0
      (addUrl "http://d.com/1" 0 0 emptyQueue).2).2).2

/-- Queue exercising the starvation fallback: targets on `d.com` and
`e.com` interleaved, with one selection on each domain just before, so that
at `t = 1000.1` both pending domains are rate-limited. -/
def rateFallbackQueue : QState :=
  (nextUrl (1000 + 1/20)
    (nextUrl 1000
      (addUrl "http://e.com/2" 0 0
        (addUrl "http://d.com/2" 0 0
          (addUrl "http://e.com/1" 0 0
            (addUrl "http://d.com/1" 0 0 emptyQueue).2).2).2).2).2).2

/-- C2 (amended): the queue never returns a target whose domain is within
`min_delay = 1.0` of its last access unless, at that moment, *no* pending
target's domain is admitted (first conjunct: a within-delay selection
implies every pending entry fails the admission test — the fallback then
releases the single oldest pending entry regardless of delay).  Concretely
(remaining conjuncts): after selecting a `d.com` target at `t = 1000`, a
request at `t = 1000.1` returns the pending `e.com` target — a different
domain — because `e.com` is admitted. -/
theorem rateGate_spacing :
    (∀ (now : ℚ) (s : QState) (u : String) (dep : Nat),
      (nextUrl now s).1 = some (u, dep) →
      now - ((alookup (getDomain u) s.domains_last_visit).getD 0) < 1 →
      ∀ e ∈ s.pending, entryAdmitted now s e = false) ∧
    (nextUrl 1000 rateScenarioQueue).1 = some ("http://d.com/1", 0) ∧
    (nextUrl (1000 + 1/10) (nextUrl 1000 rateScenarioQueue).2).1
      = some ("http://e.com/1", 0) ∧
    getDomain "http://e.com/1" ≠ getDomain "http://d.com/1" := by
  refine ⟨?_, by with_unfolding_all decide, by with_unfolding_all decide,
    by with_unfolding_all decide⟩
  intro now s u dep hsel hdelay e he
  unfold nextUrl at hsel
  cases hp : s.pending with
  | nil => rw [hp] at hsel; exact absurd hsel (by simp)
  | cons first rest =>
    rw [hp] at hsel
    dsimp only at hsel
    cases hf : (first :: rest).find? (entryAdmitted now s) with
    | some e0 =>
      rw [hf] at hsel
      have hadm : entryAdmitted now s e0 = true := List.find?_some hf
      rw [Option.some.injEq, Prod.mk.injEq] at hsel
      obtain ⟨hu, _⟩ := hsel
      unfold entryAdmitted at hadm
      rw [hu] at hadm
      simp only [Bool.not_eq_true', decide_eq_false_iff_not] at hadm
      exact absurd hdelay hadm
    | none =>
      have hall := List.find?_eq_none.mp hf
      rw [hp] at he
      have := hall e he
      simpa using this

/-- Witness for C2: in the fallback state both pending entries fail the
admission test, matching the within-delay selection of `d.com`. -/
theorem rateGate_spacing_witness :
    ∀ e ∈ rateFallbackQueue.pending,
      entryAdmitted (1000 + 1/10) rateFallbackQueue e = false :=
  rateGate_spacing.1 (1000 + 1/10) rateFallbackQueue "http://d.com/2" 0
    (by with_unfolding_all decide) (by with_unfolding_all decide)

/-- Counterexample for C2 as stated: at `t = 1000.1` the queue returns a
second `d.com` target only `0.1` after `d.com`'s last access, even though a
target on the different domain `e.com` is still pending — the fallback
fires whenever every pending domain is rate-limited, not only when the
pending set contains a single domain. -/
theorem rateGate_counterexample :
    (nextUrl (1000 + 1/10) rateFallbackQueue).1 = some ("http://d.com/2", 0) ∧
    getDomain "http://d.com/2" = getDomain "http://d.com/1" ∧
    alookup (getDomain "http://d.com/2") rateFallbackQueue.domains_last_visit
      = some 1000 ∧
    ((1000 + 1/10 : ℚ) - 1000 < 1) ∧
    "http://e.com/2" ∈ rateFallbackQueue.pending.map (fun e => e.2.url) ∧
    getDomain "http://e.com/2" ≠ getDomain "http://d.com/2" :=
  ⟨by with_unfolding_all decide, by with_unfolding_all decide,
   by with_unfolding_all decide, by with_unfolding_all decide,
   by with_unfolding_all decide, by with_unfolding_all decide⟩

/-! ## `DetectiveAgent._should_continue_investigation` (claim C6) -/

/-- `DetectiveAgent._should_continue_investigation`: the iteration bound is
checked first, then the runtime bound.  The idle-iteration fields
(`idle_iterations`, `max_idle_iterations`) are carried on the agent but the
check was removed from the source ("Removed idle iterations check to allow
more thorough investigation"), so they are taken as arguments here and do
not influence the result. -/
def shouldContinueInvestigation (current_iteration max_iterations : Nat)
    (elapsed_time max_time_seconds : ℚ)
    (idle_iterations max_idle_iterations : Nat) : Bool :=
  if current_iteration ≥ max_iterations then false
  else if elapsed_time ≥ max_time_seconds then false
  else true

/-- The `start_investigation` main loop, counting executing phases: each
round evaluates the continuation check and, when it holds, increments
`current_iteration` and executes one more target.  The elapsed time is held
at `0` against a budget of `1` (a run well within the runtime budget) and a
fresh target is always available (infinite supply of distinct targets), so
only the iteration budget can end the loop. -/
def investigationPhases (max_iterations : Nat) (current_iteration : Nat) : Nat :=
  if h : shouldContinueInvestigation current_iteration max_iterations 0 1 0 5
      = true then
    investigationPhases max_iterations (current_iteration + 1)
  else current_iteration
termination_by max_iterations - current_iteration
decreasing_by
  simp only [shouldContinueInvestigation] at h
  split at h
  · simp at h
  · rename_i hlt
    omega

/-- C6: the continuation check returns true exactly when the iteration
count is below `max_iterations` and the elapsed time is below
`max_time_seconds`, with the iteration bound checked first; the
idle-iteration arguments never influence the result (the idle budget is
disabled).  With `max_iterations = 3`, unlimited time and an infinite
supply of distinct targets, the loop performs exactly 3 executing phases
and terminates. -/
theorem shouldContinue_spec :
    (∀ (it maxIt : Nat) (el maxT : ℚ) (idle maxIdle : Nat),
      shouldContinueInvestigation it maxIt el maxT idle maxIdle
        = (decide (it < maxIt) && decide (el < maxT))) ∧
    investigationPhases 3 0 = 3 := by
  constructor
  · intro it maxIt el maxT idle maxIdle
    unfold shouldContinueInvestigation
    by_cases h1 : it ≥ maxIt
    · simp [h1, Nat.not_lt_of_le h1]
    · by_cases h2 : el ≥ maxT
      · simp [h1, h2, not_lt_of_ge h2, Nat.lt_of_not_le h1]
      · simp [h1, h2, Nat.lt_of_not_le h1, lt_of_not_ge h2]
  · rw [investigationPhases]
    norm_num [shouldContinueInvestigation]
    rw [investigationPhases]
    norm_num [shouldContinueInvestigation]
    rw [investigationPhases]
    norm_num [shouldContinueInvestigation]
    rw [investigationPhases]
    norm_num [shouldContinueInvestigation]

/-! ## `TargetScheduler.selectNext` (claim C1)

The prioritized selection lives in `research_strategy.py`
(`ResearchStrategy.get_next_target` / `add_targets`), which is not among
the provided source files — only its caller
`DetectiveAgent._get_next_investigation_target` is.  The scheduler is
therefore modelled from the spec (§4.2, §4.3). -/

/-- Modelled from the spec: a schedulable `Target` of `TargetScheduler`
(`research_strategy.py` is missing from the sources); `kind`, `identity`
and `priority` as in spec §3, with the identity's domain carried
alongside. -/
structure STarget where
  kind : String
  identity : String
  domain : String
  priority : Int
deriving Repr, DecidableEq

/-- Modelled from the spec: the scheduler state — pending targets in
insertion order plus the RateGate's `lastAccess` map. -/
structure SchedState where
  pending : List STarget
  lastAccess : List (String × ℚ)
deriving Repr, DecidableEq

/-- Modelled from the spec: `RateGate.admit(domain, now)` — admitted if the
domain has no recorded access or `now - lastAccess[domain] >= minDelay`
with `minDelay = 1`. -/
def rateGateAdmit (lastAccess : List (String × ℚ)) (domain : String)
    (now : ℚ) : Bool :=
  match alookup domain lastAccess with
  | none => true
  | some t => decide (1 ≤ now - t)

/-- Modelled from the spec: pick the highest-priority target of a list,
ties broken by insertion order (earliest first). -/
def chooseBest : List STarget → Option STarget
  | [] => none
  | t :: rest =>
    match chooseBest rest with
    | none => some t
    | some b => if b.priority > t.priority then some b else some t

/-- Modelled from the spec: `TargetScheduler.selectNext(now)` — among
pending targets whose domain the RateGate admits, choose the one with the
highest priority (ties: earliest inserted); if none is admitted, fall back
to the single oldest pending target (never deadlock); record the access
and move the chosen target out of `pending`. -/
def selectNext (now : ℚ) (s : SchedState) : Option STarget × SchedState :=
  let admitted := s.pending.filter
    (fun t => rateGateAdmit s.lastAccess t.domain now)
  let chosen :=
    match chooseBest admitted with
    | some t => some t
    | none => s.pending.head?
  match chosen with
  | none => (none, s)
  | some t =>
    (some t,
     { pending := s.pending.eraseP (fun x => x.identity = t.identity),
       lastAccess := aupdate t.domain now s.lastAccess })

/-- `chooseBest` of a non-empty list succeeds. -/
theorem chooseBest_cons_isSome (a : STarget) (rest : List STarget) :
    (chooseBest (a :: rest)).isSome = true := by
  unfold chooseBest
  cases chooseBest rest with
  | none => rfl
  | some b =>
    dsimp only
    split <;> rfl

/-- The target returned by `chooseBest` has maximal priority and is the
earliest-inserted among the maximal ones: everything before it is strictly
smaller. -/
theorem chooseBest_spec :
    ∀ (l : List STarget) (t : STarget), chooseBest l = some t →
      ∃ l1 l2, l = l1 ++ t :: l2 ∧ (∀ u ∈ l1, u.priority < t.priority) ∧
        (∀ u ∈ l, u.priority ≤ t.priority) := by
  intro l
  induction l with
  | nil => intro t h; exact absurd h (by simp [chooseBest])
  | cons a rest ih =>
    intro t h
    unfold chooseBest at h
    cases hc : chooseBest rest with
    | none =>
      rw [hc] at h
      have hrest : rest = [] := by
        cases rest with
        | nil => rfl
        | cons x xs =>
          have hs := chooseBest_cons_isSome x xs
          rw [hc] at hs
          exact absurd hs (by simp)
      rw [Option.some.injEq] at h
      subst h
      subst hrest
      exact ⟨[], [], rfl, by simp, by simp⟩
    | some b =>
      rw [hc] at h
      dsimp only at h
      obtain ⟨l1, l2, heq, hlt, hle⟩ := ih b hc
      split at h
      · rename_i hgt
        rw [Option.some.injEq] at h
        subst h
        refine ⟨a :: l1, l2, by simp [heq], ?_, ?_⟩
        · intro u hu
          rcases List.mem_cons.mp hu with h1 | h1
          · subst h1; exact hgt
          · exact hlt u h1
        · intro u hu
          rcases List.mem_cons.mp hu with h1 | h1
          · subst h1; exact le_of_lt hgt
          · exact hle u (heq ▸ h1)
      · rename_i hng
        rw [Option.some.injEq] at h
        subst h
        refine ⟨[], rest, rfl, by simp, ?_⟩
        intro u hu
        rcases List.mem_cons.mp hu with h1 | h1
        · subst h1; exact le_refl _
        · exact le_trans (hle u (heq ▸ h1)) (not_lt.mp hng)

/-- C1: when the pending set is non-empty and every pending target's domain
is admitted, `selectNext` returns the pending target with the highest
priority, ties broken by insertion order — the returned target splits the
pending list so that everything inserted before it has strictly smaller
priority and nothing exceeds it.  Concretely, for targets with priorities
5, 9, 5 added in that order on a single domain (selections spaced beyond
`minDelay`), the selection sequence is the priority-9 target, then the
first priority-5 target, then the second. -/
theorem selectNext_priority_fifo :
    (∀ (now : ℚ) (s : SchedState) (t : STarget),
      s.pending ≠ [] →
      (∀ u ∈ s.pending, rateGateAdmit s.lastAccess u.domain now = true) →
      (selectNext now s).1 = some t →
      ∃ l1 l2, s.pending = l1 ++ t :: l2 ∧
        (∀ u ∈ l1, u.priority < t.priority) ∧
        (∀ u ∈ s.pending, u.priority ≤ t.priority)) ∧
    ((selectNext 0 ⟨[⟨"website", "http://d/a", "d", 5⟩,
        ⟨"website", "http://d/b", "d", 9⟩,
        ⟨"website", "http://d/c", "d", 5⟩], []⟩).1
        = some ⟨"website", "http://d/b", "d", 9⟩ ∧
     (selectNext 10 (selectNext 0 ⟨[⟨"website", "http://d/a", "d", 5⟩,
        ⟨"website", "http://d/b", "d", 9⟩,
        ⟨"website", "http://d/c", "d", 5⟩], []⟩).2).1
        = some ⟨"website", "http://d/a", "d", 5⟩ ∧
     (selectNext 20 (selectNext 10 (selectNext 0
        ⟨[⟨"website", "http://d/a", "d", 5⟩,
          ⟨"website", "http://d/b", "d", 9⟩,
          ⟨"website", "http://d/c", "d", 5⟩], []⟩).2).2).1
        = some ⟨"website", "http://d/c", "d", 5⟩) := by
  constructor
  · intro now s t hne hadm hsel
    unfold selectNext at hsel
    dsimp only at hsel
    rw [List.filter_eq_self.mpr hadm] at hsel
    cases hc : chooseBest s.pending with
    | none =>
      cases hp : s.pending with
      | nil => exact absurd hp hne
      | cons x xs =>
        rw [hp] at hc
        exact absurd (chooseBest_cons_isSome x xs) (by rw [hc]; simp)
    | some t0 =>
      rw [hc] at hsel
      dsimp only at hsel
      rw [Option.some.injEq] at hsel
      subst hsel
      exact chooseBest_spec _ _ hc
  · refine ⟨?_, ?_, ?_⟩ <;> with_unfolding_all decide

/-- Witness for C1: in the three-target state with all domains admitted,
the theorem yields the split around the priority-9 target. -/
theorem selectNext_priority_fifo_witness :
    ∃ l1 l2,
      ([⟨"website", "http://d/a", "d", 5⟩,
        ⟨"website", "http://d/b", "d", 9⟩,
        ⟨"website", "http://d/c", "d", 5⟩] : List STarget)
        = l1 ++ (⟨"website", "http://d/b", "d", 9⟩ : STarget) :: l2 ∧
      (∀ u ∈ l1, u.priority < (9 : Int)) ∧
      (∀ u ∈ ([⟨"website", "http://d/a", "d", 5⟩,
        ⟨"website", "http://d/b", "d", 9⟩,
        ⟨"website", "http://d/c", "d", 5⟩] : List STarget),
        u.priority ≤ (9 : Int)) :=
  selectNext_priority_fifo.1 0
    ⟨[⟨"website", "http://d/a", "d", 5⟩,
      ⟨"website", "http://d/b", "d", 9⟩,
      ⟨"website", "http://d/c", "d", 5⟩], []⟩
    ⟨"website", "http://d/b", "d", 9⟩
    (by decide) (by decide) (by decide)

/-! ## Name normalization characterization (claim C7) -/

/-- `stripLeadingTitle` only removes characters. -/
theorem mem_stripLeadingTitle {t s : List Char} {c : Char}
    (h : c ∈ stripLeadingTitle t s) : c ∈ s := by
  unfold stripLeadingTitle at h
  split at h
  · cases hd : s.drop t.length with
    | nil => rw [hd] at h; exact h
    | cons c0 rest =>
      rw [hd] at h
      dsimp only at h
      split at h
      · have h1 : c ∈ rest := (List.dropWhile_sublist _).subset h
        have h2 : c ∈ s.drop t.length := by
          rw [hd]; exact List.mem_cons_of_mem _ h1
        exact (List.drop_sublist _ _).subset h2
      · exact h
  · exact h

/-- `stripTrailingSuffix` only removes characters. -/
theorem mem_stripTrailingSuffix {t s : List Char} {c : Char}
    (h : c ∈ stripTrailingSuffix t s) : c ∈ s := by
  unfold stripTrailingSuffix at h
  dsimp only at h
  split at h
  · cases hd : s.reverse.drop t.reverse.length with
    | nil => rw [hd] at h; exact h
    | cons c0 rest =>
      rw [hd] at h
      dsimp only at h
      split at h
      · have h1 : c ∈ c0 :: rest :=
          (List.dropWhile_sublist _).subset (List.mem_reverse.mp h)
        have h2 : c ∈ s.reverse := by
          rw [← hd] at h1
          exact (List.drop_sublist _ _).subset h1
        exact List.mem_reverse.mp h2
      · exact h
  · exact h

/-- The title-stripping fold only removes characters. -/
theorem mem_foldl_stripLeadingTitle {c : Char} :
    ∀ (ts : List String) (s : List Char),
      c ∈ ts.foldl (fun s t => stripLeadingTitle t.toList s) s → c ∈ s := by
  intro ts
  induction ts with
  | nil => intro s h; exact h
  | cons t rest ih => intro s h; exact mem_stripLeadingTitle (ih _ h)

/-- The suffix-stripping fold only removes characters. -/
theorem mem_foldl_stripTrailingSuffix {c : Char} :
    ∀ (ts : List String) (s : List Char),
      c ∈ ts.foldl (fun s t => stripTrailingSuffix t.toList s) s → c ∈ s := by
  intro ts
  induction ts with
  | nil => intro s h; exact h
  | cons t rest ih => intro s h; exact mem_stripTrailingSuffix (ih _ h)

/-- `strip()` only removes characters. -/
theorem mem_trimWs {l : List Char} {c : Char} (h : c ∈ trimWs l) : c ∈ l := by
  unfold trimWs at h
  have h1 := List.mem_reverse.mp h
  have h2 := (List.dropWhile_sublist _).subset h1
  have h3 := List.mem_reverse.mp h2
  exact (List.dropWhile_sublist _).subset h3

/-- Every character of a name-normalized string is a word character
(alphanumeric or underscore) or whitespace. -/
theorem nameNormalization_charset (s : String) :
    ∀ c ∈ (normalizeContent s (some "name")).toList,
      isWordChar c = true ∨ isPySpace c = true := by
  intro c hc
  have hc2 : c ∈ normalizeContentL s.toList (some "name") := hc
  unfold normalizeContentL at hc2
  split at hc2
  · simp at hc2
  · dsimp only at hc2
    rw [if_pos rfl] at hc2
    have h1 := mem_trimWs hc2
    have h2 := mem_foldl_stripTrailingSuffix _ _ h1
    have h3 := mem_foldl_stripLeadingTitle _ _ h2
    have h4 := List.mem_filter.mp h3
    exact (Bool.or_eq_true _ _).mp h4.2

/-- C7 (amended): name-kind normalization lowercases, collapses whitespace
runs to a single space, trims, strips all characters that are not
alphanumeric, underscore, or whitespace (the regex class `\w` keeps the
underscore), then iterates once over the honorific list
mr, mrs, ms, miss, dr, prof, sir, lord, lady, stripping each matching
anchored leading token (so several successive honorifics can be removed),
and likewise once over the suffix list jr, sr, ii, iii, iv, v at the end of
the string.  First conjunct: the result's characters are always word
characters or whitespace.  In particular
`normalize("Dr. Jane Smith Jr.", "name") = "jane smith"`, while `"a_b"`
keeps its underscore and `"dr prof smith"` loses both titles. -/
theorem nameNormalization_spec :
    (∀ (s : String), ∀ c ∈ (normalizeContent s (some "name")).toList,
      isWordChar c = true ∨ isPySpace c = true) ∧
    normalizeContent "Dr. Jane Smith Jr." (some "name") = "jane smith" ∧
    normalizeContent "a_b" (some "name") = "a_b" ∧
    normalizeContent "dr prof smith" (some "name") = "smith" ∧
    normalizeContent "smith sr jr" (some "name") = "smith" :=
  ⟨nameNormalization_charset, by decide, by decide, by decide, by decide⟩

/-- Witness for C7: the charset property at a character of the normalized
example. -/
theorem nameNormalization_spec_witness :
    isWordChar 'j' = true ∨ isPySpace 'j' = true :=
  nameNormalization_spec.1 "Dr. Jane Smith Jr." 'j' (by decide)

/-- Counterexample for C7 as stated: stripping "all characters that are not
alphanumeric or whitespace" would turn `"a_b"` into `"ab"`, but the source
keeps the underscore (`\w` includes it); and stripping "one leading
honorific token" would turn `"dr prof smith"` into `"prof smith"`, but the
source iterates over the whole title list and removes both. -/
theorem nameNormalization_counterexample :
    normalizeContent "a_b" (some "name") = "a_b" ∧
    ("a_b" : String) ≠ "ab" ∧
    normalizeContent "dr prof smith" (some "name") = "smith" ∧
    ("smith" : String) ≠ "prof smith" :=
  ⟨by decide, by decide, by decide, by decide⟩

/-! ## `DetectiveAgent._process_artifacts` (claim C3) -/

/-- A raw artifact as returned by the external extractor (missing dict keys
are modelled as empty strings / the given defaults). -/
structure Artifact where
  type : String
  subtype : String
  content : String
  name : String
  score : ℚ
  hash : String
  summary : String
  date : String
deriving Repr, DecidableEq

/-- The fold state of the `_process_artifacts` loop: the agent state, the
loop-constant call arguments, the batch-local dedup dict
(`batch_artifacts`), the accepted discoveries of this call and the skip
counter. -/
structure BatchState where
  agent : AgentState
  source_url : String
  is_wayback : Bool
  original_url : String
  current_iteration : Nat
  batch_artifacts : List String
  new_discoveries : List Discovery
  skipped_count : Nat
deriving Repr, DecidableEq

/-- The prepositions/articles of the sentence-fragment filter. -/
def prepositionList : List String :=
  ["the", "a", "an", "of", "to", "from", "by", "with", "for", "in", "on", "at"]

/-- The stopword list of the stopword-ratio penalty. -/
def stopwordList : List String :=
  ["the", "a", "an", "is", "are", "was", "were", "be", "been", "being",
   "have", "has", "had", "do", "does", "did", "will", "would", "shall",
   "should", "can", "could", "may", "might", "must", "of", "to", "from",
   "by", "with", "for", "in", "on", "at", "as", "this", "that", "these",
   "those", "their", "his", "her", "its", "our", "your", "my", "mine"]

/-- `re.match(r'^[a-zA-Z0-9_-]+$', content)`. -/
def matchesHandle (content : String) : Bool :=
  !content.toList.isEmpty &&
    content.toList.all (fun c => c.isAlphanum || c = '_' || c = '-')

/-- `re.match(r'^[a-zA-Z][a-zA-Z0-9_-]{2,}$', content)`. -/
def matchesLongHandle (content : String) : Bool :=
  match content.toList with
  | c :: rest =>
    c.isAlpha && rest.length ≥ 2 &&
      rest.all (fun d => d.isAlphanum || d = '_' || d = '-')
  | [] => false

/-- The score adjustments of the `artifact_type == 'name'` branch: subtype
boost, handle-shape boosts, space-ratio penalty and stopword-ratio
penalty. -/
def nameScoreAdjust (a : Artifact) (words : List String) : ℚ :=
  let s1 := a.score + (if a.subtype = "username" then 0.2
    else if a.subtype = "pseudonym" then 0.3
    else if a.subtype = "project_name" then 0.2 else 0.1)
  let s2 := s1 + (if matchesHandle a.content then 0.2 else 0)
  let s3 := s2 + (if matchesLongHandle a.content then 0.1 else 0)
  let spaceRatio : ℚ := if a.content.length > 0 then
      ((a.content.toList.count ' ' : ℚ)) / (a.content.length : ℚ) else 0
  let s4 := s3 - spaceRatio * 0.4
  if words.length > 1 then
    let stopwordCount :=
      (words.filter (fun w => stopwordList.contains (lowerStr w))).length
    if (stopwordCount : ℚ) / (words.length : ℚ) > 0.3 then s4 - 0.3 else s4
  else s4

/-- The type-specific normalized name field (`normalized_name`, `None`
unless a name artifact has a non-empty `name`). -/
def normalizedName (a : Artifact) : Option String :=
  if a.type = "name" && a.name ≠ "" then
    some (normalizeContent a.name (some "name"))
  else none

/-- Skip: artifact with empty content and name. -/
def emptyContentSkip (a : Artifact) : Bool :=
  a.content = "" && a.name = ""

/-- Skip: normalized content or name already processed in this batch. -/
def batchDupSkip (bs : BatchState) (a : Artifact) : Bool :=
  (normalizeContent a.content (some a.type) ≠ "" &&
    bs.batch_artifacts.contains (normalizeContent a.content (some a.type))) ||
  (match normalizedName a with
   | some nn => nn ≠ "" && bs.batch_artifacts.contains nn
   | none => false)

/-- The batch dict after tracking the normalized content and name. -/
def batchAfterNorm (bs : BatchState) (a : Artifact) : List String :=
  let nc := normalizeContent a.content (some a.type)
  let b1 := if nc ≠ "" then bs.batch_artifacts ++ [nc] else bs.batch_artifacts
  match normalizedName a with
  | some nn => if nn ≠ "" then b1 ++ [nn] else b1
  | none => b1

/-- `core_name = re.sub(r'[^\w]', '', content.lower())`. -/
def coreName (a : Artifact) : String :=
  String.mk ((a.content.toList.map Char.toLower).filter isWordChar)

/-- Skip (name artifacts): the core name is already in the batch dict
(which at this point already holds this artifact's own normalized
forms). -/
def coreBatchSkip (bs : BatchState) (a : Artifact) : Bool :=
  a.type = "name" && a.content ≠ "" &&
    (batchAfterNorm bs a).contains (coreName a)

/-- The batch dict after additionally tracking the core name. -/
def trackedBatch (bs : BatchState) (a : Artifact) : List String :=
  if a.type = "name" && a.content ≠ "" && coreName a ≠ "" then
    batchAfterNorm bs a ++ [coreName a]
  else batchAfterNorm bs a

/-- Skip (name artifacts): first or last word is a preposition/article
(sentence fragment). -/
def fragmentSkip (a : Artifact) : Bool :=
  a.type = "name" &&
    (let words := pySplit a.content
     (words.take 1 ++ words.drop (words.length - 1)).any
       (fun w => prepositionList.contains (lowerStr w)))

/-- Skip (name artifacts): the content contains the entity or one of its
live aliases as a (case-insensitive) substring. -/
def entityAliasSkip (ag : AgentState) (a : Artifact) : Bool :=
  a.type = "name" && ag.entity ≠ "" &&
    (substrOf (lowerStr ag.entity) (lowerStr a.content) ||
     ag.entity_aliases.any
       (fun al => substrOf (lowerStr al) (lowerStr a.content)))

/-- Skip (name artifacts): the content contains a newline, carriage return
or tab. -/
def invalidCharSkip (a : Artifact) : Bool :=
  a.type = "name" && a.content.toList.any
    (fun c => c = '\n' || c = Char.ofNat 13 || c = '\t')

/-- Skip (name artifacts): the content is shorter than 2 or longer than 30
characters. -/
def lengthSkip (a : Artifact) : Bool :=
  a.type = "name" && (a.content.length < 2 || a.content.length > 30)

/-- The adjusted score: the name branch's boosts/penalties, or the flat
`+0.2` for the other identity-bearing types. -/
def adjustedScore (a : Artifact) : ℚ :=
  if a.type = "name" then nameScoreAdjust a (pySplit a.content)
  else if a.type = "username" || a.type = "alias" ||
      a.type = "wallet_address" || a.type = "private_key" then
    a.score + 0.2
  else a.score

/-- The discovery dict built from an admitted artifact. -/
def buildDiscovery (bs : BatchState) (a : Artifact) : Discovery :=
  { id := if a.hash ≠ "" then a.hash
      else toString (bs.agent.discoveries.length + bs.new_discoveries.length + 1),
    type := a.type,
    content := a.content,
    summary := a.summary,
    source_url := bs.source_url,
    original_url := if bs.is_wayback then bs.original_url else bs.source_url,
    is_wayback := bs.is_wayback,
    score := min 1 (adjustedScore a),
    iteration := bs.current_iteration,
    name := a.name }

/-- On acceptance: append the discovery to `discoveries` and, for an
identity-bearing type, add the raw content to the live entity-alias set. -/
def acceptAgent (a : Artifact) (d : Discovery) (s : AgentState) : AgentState :=
  let s2 := { s with discoveries := s.discoveries ++ [d] }
  if a.type = "username" || a.type = "alias" ||
      a.type = "wallet_address" || a.type = "name" then
    { s2 with entity_aliases := s2.entity_aliases ++ [a.content] }
  else s2

/-- The loop body of `DetectiveAgent._process_artifacts` for one artifact.
The Python `continue` statements become early returns that keep the state
reached so far (in particular, additions to `batch_artifacts` made before a
`continue` persist); the nested `if artifact_type == 'name':` block is
flattened into `a.type = "name" && …` guards inside the named skip
checks. -/
def processArtifact (bs : BatchState) (a : Artifact) : BatchState :=
  if emptyContentSkip a then
    { bs with skipped_count := bs.skipped_count + 1 }
  else if batchDupSkip bs a then
    { bs with skipped_count := bs.skipped_count + 1 }
  else if coreBatchSkip bs a then
    { bs with
        batch_artifacts := batchAfterNorm bs a
        skipped_count := bs.skipped_count + 1 }
  else if fragmentSkip a then
    { bs with
        batch_artifacts := trackedBatch bs a
        skipped_count := bs.skipped_count + 1 }
  else if entityAliasSkip bs.agent a then
    { bs with
        batch_artifacts := trackedBatch bs a
        skipped_count := bs.skipped_count + 1 }
  else if invalidCharSkip a then
    { bs with
        batch_artifacts := trackedBatch bs a
        skipped_count := bs.skipped_count + 1 }
  else if lengthSkip a then
    { bs with
        batch_artifacts := trackedBatch bs a
        skipped_count := bs.skipped_count + 1 }
  else if adjustedScore a < 0.3 then
    { bs with
        batch_artifacts := trackedBatch bs a
        skipped_count := bs.skipped_count + 1 }
  else if (isDuplicateDiscovery (buildDiscovery bs a) bs.agent).1 then
    { bs with
        agent := (isDuplicateDiscovery (buildDiscovery bs a) bs.agent).2
        batch_artifacts := trackedBatch bs a
        skipped_count := bs.skipped_count + 1 }
  else
    { bs with
        agent := acceptAgent a (buildDiscovery bs a)
          (isDuplicateDiscovery (buildDiscovery bs a) bs.agent).2
        batch_artifacts := trackedBatch bs a
        new_discoveries := bs.new_discoveries ++ [buildDiscovery bs a] }

/-- `DetectiveAgent._process_artifacts`: fold the loop body over the batch,
starting with an empty batch-local dedup dict. -/
def processArtifacts (agent : AgentState) (artifacts : List Artifact)
    (source_url : String) (is_wayback : Bool) (original_url : String)
    (current_iteration : Nat) : BatchState :=
  artifacts.foldl processArtifact
    ⟨agent, source_url, is_wayback, original_url, current_iteration, [], [], 0⟩

/-- `_is_duplicate_discovery` never changes the alias set. -/
theorem isDuplicate_aliases (d : Discovery) (s : AgentState) :
    ((isDuplicateDiscovery d s).2).entity_aliases = s.entity_aliases := by
  rw [isDuplicateDiscovery_snd]
  split <;> rfl

/-- `acceptAgent` preserves existing aliases. -/
theorem acceptAgent_aliases (a : Artifact) (d : Discovery) (s : AgentState)
    (x : String) (hx : x ∈ s.entity_aliases) :
    x ∈ (acceptAgent a d s).entity_aliases := by
  unfold acceptAgent
  dsimp only
  split
  · simp [hx]
  · exact hx

/-- `acceptAgent` adds the content of an identity-bearing artifact to the
alias set. -/
theorem acceptAgent_content_mem (a : Artifact) (d : Discovery) (s : AgentState)
    (htype : a.type = "username" ∨ a.type = "alias" ∨
      a.type = "wallet_address" ∨ a.type = "name") :
    a.content ∈ (acceptAgent a d s).entity_aliases := by
  unfold acceptAgent
  dsimp only
  rw [if_pos (by rcases htype with h | h | h | h <;> simp [h])]
  simp

/-- One `_process_artifacts` step never removes an alias. -/
theorem processArtifact_alias_mono (bs : BatchState) (a : Artifact)
    (x : String) (hx : x ∈ bs.agent.entity_aliases) :
    x ∈ (processArtifact bs a).agent.entity_aliases := by
  unfold processArtifact
  split
  · exact hx
  split
  · exact hx
  split
  · exact hx
  split
  · exact hx
  split
  · exact hx
  split
  · exact hx
  split
  · exact hx
  split
  · exact hx
  split
  · dsimp only
    rw [isDuplicate_aliases]
    exact hx
  · dsimp only
    refine acceptAgent_aliases _ _ _ _ ?_
    rw [isDuplicate_aliases]
    exact hx

/-- A `_process_artifacts` step either skips the artifact (no new
discovery) or accepts it, appending the built discovery and updating the
agent through `acceptAgent`. -/
theorem processArtifact_cases (bs : BatchState) (a : Artifact) :
    (processArtifact bs a).new_discoveries = bs.new_discoveries ∨
    ((processArtifact bs a).new_discoveries
        = bs.new_discoveries ++ [buildDiscovery bs a] ∧
     (processArtifact bs a).agent
        = acceptAgent a (buildDiscovery bs a)
            (isDuplicateDiscovery (buildDiscovery bs a) bs.agent).2) := by
  unfold processArtifact
  split
  · left; rfl
  split
  · left; rfl
  split
  · left; rfl
  split
  · left; rfl
  split
  · left; rfl
  split
  · left; rfl
  split
  · left; rfl
  split
  · left; rfl
  split
  · left; rfl
  · right; exact ⟨rfl, rfl⟩

/-- An artifact rejected by the live entity-alias check produces no
discovery. -/
theorem processArtifact_skip_of_alias (bs : BatchState) (a : Artifact)
    (hs : entityAliasSkip bs.agent a = true) :
    (processArtifact bs a).new_discoveries = bs.new_discoveries := by
  unfold processArtifact
  split
  · rfl
  split
  · rfl
  split
  · rfl
  split
  · rfl
  simp [hs]

/-- C3 (amended): the alias feedback loop.  First conjunct: whenever an
artifact whose type is `username`, `alias`, `wallet_address` or `name` is
accepted by a `_process_artifacts` step, its raw content is in the live
entity-alias set immediately afterwards — before the next artifact of the
batch is evaluated (the batch is a fold of these steps).  Second conjunct:
aliases are never removed by the rest of the batch.  Third conjunct: a
name-typed artifact whose lowercased content *contains* an alias from the
live set (with a non-empty entity) is rejected.  The reverse containment —
content merely contained *in* an accepted alias — is not checked against
the live set (the both-direction excluded-names comparison uses the copy
taken at initialization), see the counterexample. -/
theorem aliasFeedback_spec :
    (∀ (bs : BatchState) (a : Artifact),
      (a.type = "username" ∨ a.type = "alias" ∨ a.type = "wallet_address" ∨
        a.type = "name") →
      (processArtifact bs a).new_discoveries ≠ bs.new_discoveries →
      a.content ∈ (processArtifact bs a).agent.entity_aliases) ∧
    (∀ (l : List Artifact) (bs : BatchState) (x : String),
      x ∈ bs.agent.entity_aliases →
      x ∈ (l.foldl processArtifact bs).agent.entity_aliases) ∧
    (∀ (bs : BatchState) (b : Artifact) (al : String),
      b.type = "name" → bs.agent.entity ≠ "" →
      al ∈ bs.agent.entity_aliases →
      substrOf (lowerStr al) (lowerStr b.content) = true →
      (processArtifact bs b).new_discoveries = bs.new_discoveries) := by
  refine ⟨?_, ?_, ?_⟩
  · intro bs a htype hne
    rcases processArtifact_cases bs a with h | ⟨_, h2⟩
    · exact absurd h hne
    · rw [h2]
      exact acceptAgent_content_mem _ _ _ htype
  · intro l
    induction l with
    | nil => intro bs x hx; exact hx
    | cons a rest ih =>
      intro bs x hx
      exact ih _ _ (processArtifact_alias_mono bs a x hx)
  · intro bs b al htype hent hal hsub
    apply processArtifact_skip_of_alias
    unfold entityAliasSkip
    simp only [htype, Bool.and_eq_true, decide_eq_true_eq, Bool.or_eq_true,
      List.any_eq_true, ne_eq]
    exact ⟨⟨trivial, hent⟩, Or.inr ⟨al, hal, hsub⟩⟩

/-- Witness for C3: with "Satoshi Roundhouse" in the live alias set, a
name artifact whose content contains it is rejected. -/
theorem aliasFeedback_spec_witness :
    (processArtifact
      ⟨⟨"E Guy", ["E Guy", "Guy", "Satoshi Roundhouse"],
        ["E Guy", "Guy"], [], []⟩,
       "http://example.com", false, "", 1, [], [], 0⟩
      ⟨"name", "", "Satoshi Roundhouse Fan", "", 0.5, "h9", "", ""⟩
     ).new_discoveries = [] :=
  aliasFeedback_spec.2.2 _ _ "Satoshi Roundhouse" (by decide) (by decide)
    (by decide) (by decide)

/-- Counterexample for C3 as stated: the artifact "Satoshi Roundhouse"
(type `username`) is accepted and its content enters the live alias set,
yet the later name artifact "Satoshi Round" — whose content is contained
in that freshly accepted alias — is also accepted: only the
alias-contained-in-content direction is checked against the live set, and
the both-direction excluded-names check uses the initialization-time copy,
which never receives new aliases. -/
theorem aliasFeedback_counterexample :
    (processArtifacts
        ⟨"E Guy", ["E Guy", "Guy", "Guy, E"], ["E Guy", "Guy", "Guy, E"], [], []⟩
        [⟨"username", "", "Satoshi Roundhouse", "", 0.5, "h1", "", ""⟩,
         ⟨"name", "", "Satoshi Round", "", 0.5, "h2", "", ""⟩]
        "http://example.com" false "" 1).new_discoveries.length = 2 ∧
    "Satoshi Roundhouse" ∈ (processArtifacts
        ⟨"E Guy", ["E Guy", "Guy", "Guy, E"], ["E Guy", "Guy", "Guy, E"], [], []⟩
        [⟨"username", "", "Satoshi Roundhouse", "", 0.5, "h1", "", ""⟩,
         ⟨"name", "", "Satoshi Round", "", 0.5, "h2", "", ""⟩]
        "http://example.com" false "" 1).agent.entity_aliases ∧
    substrOf (lowerStr "Satoshi Round") (lowerStr "Satoshi Roundhouse") = true :=
  ⟨by with_unfolding_all decide, by with_unfolding_all decide,
   by with_unfolding_all decide⟩

end Narrahunt
